import Mathlib

/-!
Verification of the smart-merge service core (src/app.py).

The data model follows §3 of the design document: a `Table` is an ordered
header list together with row-major cells.  A cell is `Option String`:
`none` models a missing value (pandas `NaN`), `some s` a string-like value.

The three operations under verification are shallow embeddings of
`merge_files`, `generate_hm` and `transform_file` from `src/app.py`.
HTTP plumbing, ingestion of byte streams and spreadsheet serialization are
out of scope; the operations act on already-ingested `Table`s, and the
`/merge` endpoint's empty-input rejection is modelled by an `Except` error
carrying the HTTP status code.
-/

structure Table where
  headers : List String
  rows : List (List (Option String))
deriving DecidableEq

/-- Position of a column name in a header list; returns the list length when
the name is absent (as `list.index` semantics used positionally). -/
def colIndex : List String → String → Nat
  | [], _ => 0
  | h :: t, c => if h = c then 0 else colIndex t c + 1

/-- Column of a table selected by header name (`input_df[matched_col]`):
the cell of each row at the header's position. -/
def Table.col (t : Table) (c : String) : List (Option String) :=
  t.rows.map (fun r => (r.get? (colIndex t.headers c)).getD none)

/-- `df.reindex(columns=cols)` (src/app.py line 50): label-based column
selection; a label absent from the source table yields an all-missing
column. -/
def Table.reindex (t : Table) (cols : List String) : Table :=
  { headers := cols,
    rows := t.rows.map (fun r => cols.map (fun c =>
      if c ∈ t.headers then (r.get? (colIndex t.headers c)).getD none else none)) }

/-- `df.fillna("")` (src/app.py line 54): every missing cell becomes the
empty string; present cells are unchanged. -/
def Table.fillnaEmpty (t : Table) : Table :=
  { headers := t.headers,
    rows := t.rows.map (fun r => r.map (fun c => some (c.getD ""))) }

/-- The `seen_extra_cols` accumulation of src/app.py lines 40-43: scan every
table's headers in order, appending each header not in `base` and not yet
recorded. -/
def computeExtras (base : List String) (ts : List Table) : List String :=
  ts.foldl (fun ex t =>
    t.headers.foldl (fun ex2 c => if c ∈ base ∨ c ∈ ex2 then ex2 else ex2 ++ [c]) ex) []

/-- `final_cols` of src/app.py lines 46-47: base headers, then the recorded
extras not already among the base headers. -/
def finalColumns (base : List String) (ts : List Table) : List String :=
  base ++ (computeExtras base ts).filter (fun c => ¬ c ∈ base)

/-- The `/merge` endpoint core (src/app.py `merge_files`): rejects an empty
upload list with HTTP 400, otherwise aligns every table to the final column
order, stacks all rows in upload order, and blank-fills missing cells. -/
def merge_files (files : List Table) : Except (Nat × String) Table :=
  match files with
  | [] => .error (400, "No files uploaded")
  | t0 :: _ =>
    let finalCols := finalColumns t0.headers files
    let aligned := files.map (fun t => t.reindex finalCols)
    Except.ok (Table.fillnaEmpty { headers := finalCols,
                                   rows := (aligned.map Table.rows).flatten })

/-- Spec-side description of the extras (§4.2 step 3): one linear scan of a
header stream, appending each header neither in `base` nor already seen. -/
def firstSeenNew (base : List String) (hs : List String) : List String :=
  hs.foldl (fun acc c => if c ∈ base ∨ c ∈ acc then acc else acc ++ [c]) []

/-- `matched` list of src/app.py line 91. -/
def matchedList (base inputH : List String) : List String :=
  base.map (fun c => if c ∈ inputH then c else "")

/-- `unmatched_headers` list of src/app.py line 94. -/
def unmatchedList (base inputH : List String) : List String :=
  inputH.filter (fun c => ¬ c ∈ base)

/-- Rows of a 3-column frame built from three equally long lists
(`pd.DataFrame({...})`, src/app.py lines 102-106). -/
def rows3 : List String → List String → List String → List (List (Option String))
  | a :: as, b :: bs, c :: cs => [some a, some b, some c] :: rows3 as bs cs
  | _, _, _ => []

/-- The `/generate-hm` endpoint core (src/app.py `generate_hm`): builds the
Header-Matching table from the two tables' header lists. -/
def generate_hm (inputT baseT : Table) : Table :=
  let bh := baseT.headers
  let ih := inputT.headers
  let matched := matchedList bh ih
  let unmatched := unmatchedList bh ih
  let maxLen := max bh.length unmatched.length
  let baseExt := bh ++ List.replicate (maxLen - bh.length) ""
  let matchedExt := matched ++ List.replicate (maxLen - matched.length) ""
  let unmatchedExt := unmatched ++ List.replicate (maxLen - unmatched.length) ""
  { headers := ["Base Header", "Matched Input Header", "Unmatched Input Headers"],
    rows := rows3 baseExt matchedExt unmatchedExt }

/-- Python `str()` applied to a cell: a present value prints as itself, a
missing value prints as "nan". -/
def strCell : Option String → String
  | none => "nan"
  | some s => s

/-- `row.get(key, "")` of src/app.py lines 140-141, followed by `str`:
the named cell if the column exists, else the empty-string default. -/
def rowGet (hdrs : List String) (r : List (Option String)) (key : String) : String :=
  if key ∈ hdrs then strCell ((r.get? (colIndex hdrs key)).getD none) else ""

/-- Python whitespace as stripped by `str.strip()` (ASCII subset). -/
def isPySpace (c : Char) : Bool :=
  c = ' ' ∨ c = '\t' ∨ c = '\n' ∨ c = '\r'

/-- Python `s.strip()`: remove leading and trailing whitespace. -/
def pyStrip (s : String) : String :=
  String.mk (((s.data.dropWhile isPySpace).reverse.dropWhile isPySpace).reverse)

/-- Lower-casing of one ASCII character, as `str.lower()` acts on it. -/
def charLower (c : Char) : Char :=
  if 'A' ≤ c ∧ c ≤ 'Z' then Char.ofNat (c.toNat + 32) else c

/-- Python `s.lower()`. -/
def pyLower (s : String) : String :=
  String.mk (s.data.map charLower)

/-- Python `s.startswith(t)`. -/
def pyStartsWith (s t : String) : Bool :=
  t.data.isPrefixOf s.data

/-- Python `s.endswith(t)`. -/
def pyEndsWith (s t : String) : Bool :=
  t.data.isSuffixOf s.data

/-- Python `s.strip(c)`: remove every leading and trailing occurrence of the
character `c`. -/
def stripChar (c : Char) (s : String) : String :=
  String.mk (((s.data.dropWhile (· == c)).reverse.dropWhile (· == c)).reverse)

/-- The column value assigned for one hm row (src/app.py lines 146-157),
given the already-trimmed `Matched Input Header` text `m`:
a copy of the input column, a repeated quote-stripped literal, or blanks. -/
def dirValue (inputT : Table) (m : String) : List (Option String) :=
  if m ∈ inputT.headers then inputT.col m
  else if pyStartsWith m "\"" ∧ pyEndsWith m "\"" then
    List.replicate inputT.rows.length (some (stripChar '"' m))
  else if m = "" ∨ pyLower m = "nan" then
    List.replicate inputT.rows.length (some "")
  else
    List.replicate inputT.rows.length (some "")

/-- A dataframe under column-wise construction: insertion-ordered named
columns with unique names. -/
abbrev TDf := List (String × List (Option String))

/-- `transformed_df[k] = v`: replace the column in place if the name exists,
else append it. -/
def upsert (tdf : TDf) (k : String) (v : List (Option String)) : TDf :=
  if tdf.any (fun p => p.1 = k) then
    tdf.map (fun p => if p.1 = k then (k, v) else p)
  else
    tdf ++ [(k, v)]

/-- Trimmed `Base Header` cell of an hm row (src/app.py line 140). -/
def trimBase (hdrs : List String) (r : List (Option String)) : String :=
  pyStrip (rowGet hdrs r "Base Header")

/-- Trimmed `Matched Input Header` cell of an hm row (src/app.py line 141). -/
def trimMatched (hdrs : List String) (r : List (Option String)) : String :=
  pyStrip (rowGet hdrs r "Matched Input Header")

/-- One iteration of the hm-row loop (src/app.py lines 139-157): skip the
row when the trimmed base header is empty, else assign its directive's
column. -/
def hmStep (inputT : Table) (hdrs : List String) (tdf : TDf)
    (r : List (Option String)) : TDf :=
  if trimBase hdrs r = "" then tdf
  else upsert tdf (trimBase hdrs r) (dirValue inputT (trimMatched hdrs r))

/-- The full hm-row loop over an empty initial frame. -/
def applyHmRows (inputT hm : Table) : TDf :=
  hm.rows.foldl (hmStep inputT hm.headers) []

/-- Length of a frame's row index: the first column's length, 0 for an empty
frame (a pandas scalar assignment broadcasts over this index). -/
def indexLen (tdf : TDf) : Nat :=
  match tdf with
  | [] => 0
  | (_, v) :: _ => v.length

/-- The "ensure all base headers exist" loop (src/app.py lines 160-162):
each base header not yet a column is added as an empty-string scalar
broadcast over the current row index. -/
def ensureBase (tdf : TDf) (baseHeaders : List String) : TDf :=
  baseHeaders.foldl (fun acc c =>
    if acc.any (fun p => p.1 = c) then acc
    else acc ++ [(c, List.replicate (indexLen acc) (some ""))]) tdf

/-- `transformed_df[base_headers]` (src/app.py line 164): select exactly the
base headers, in base order. -/
def selectCols (tdf : TDf) (baseHeaders : List String) : TDf :=
  baseHeaders.map (fun c => (c, ((tdf.find? (fun p => p.1 = c)).map Prod.snd).getD []))

/-- The `/transform` endpoint core (src/app.py `transform_file`): apply the
hm rows, synthesize missing base columns, and reshape to the base headers. -/
def transform_file (inputT baseT hm : Table) : TDf :=
  selectCols (ensureBase (applyHmRows inputT hm) baseT.headers) baseT.headers

/-! Concrete tables used to instantiate the theorems below on executable
inputs. -/

def W1 : Table :=
  { headers := ["A", "B"], rows := [[some "a1", none]] }

def W2 : Table :=
  { headers := ["B", "C"], rows := [[some "b2", some "c2"]] }

def Wout : Table :=
  { headers := ["A", "B", "C"],
    rows := [[some "a1", some "", some ""], [some "", some "b2", some "c2"]] }

def TIn : Table :=
  { headers := ["Y"], rows := [[some "y1"]] }

def TBase : Table :=
  { headers := ["Name", "Extra"], rows := [] }

def THm : Table :=
  { headers := ["Base Header", "Matched Input Header", "Unmatched Input Headers"],
    rows := [[some "Name", some "Y", some ""]] }

def THmQuote : Table :=
  { headers := ["Base Header", "Matched Input Header", "Unmatched Input Headers"],
    rows := [[some "Name", some "\"Active\"", some ""]] }

def THmDup : Table :=
  { headers := ["Base Header", "Matched Input Header", "Unmatched Input Headers"],
    rows := [[some "Name", some "\"v1\"", some ""], [some "Name", some "Y", some ""]] }

def THmSkip : Table :=
  { headers := ["Base Header", "Matched Input Header", "Unmatched Input Headers"],
    rows := [[some "  ", some "Y", some ""]] }

/-! ## Lemmas about the merger -/

theorem notMem_firstSeenNew_aux (base : List String) (hs : List String) :
    ∀ acc : List String, (∀ c ∈ acc, c ∉ base) →
      ∀ c ∈ hs.foldl (fun acc c => if c ∈ base ∨ c ∈ acc then acc else acc ++ [c]) acc,
        c ∉ base := by
  induction hs with
  | nil => intro acc hacc c hc; exact hacc c hc
  | cons h t ih =>
    intro acc hacc c hc
    simp only [List.foldl_cons] at hc
    by_cases hmem : h ∈ base ∨ h ∈ acc
    · rw [if_pos hmem] at hc
      exact ih acc hacc c hc
    · rw [if_neg hmem] at hc
      refine ih (acc ++ [h]) ?_ c hc
      intro d hd
      rcases List.mem_append.mp hd with hd | hd
      · exact hacc d hd
      · simp only [List.mem_singleton] at hd
        subst hd
        exact fun hdb => hmem (Or.inl hdb)

theorem notMem_of_mem_firstSeenNew (base hs : List String) :
    ∀ c ∈ firstSeenNew base hs, c ∉ base :=
  notMem_firstSeenNew_aux base hs [] (by simp)

theorem computeExtras_eq_firstSeenNew (base : List String) (ts : List Table) :
    computeExtras base ts = firstSeenNew base ((ts.map Table.headers).flatten) := by
  suffices h : ∀ acc : List String,
      ts.foldl (fun ex t =>
        t.headers.foldl (fun ex2 c => if c ∈ base ∨ c ∈ ex2 then ex2 else ex2 ++ [c]) ex) acc =
      ((ts.map Table.headers).flatten).foldl
        (fun acc c => if c ∈ base ∨ c ∈ acc then acc else acc ++ [c]) acc by
    exact h []
  induction ts with
  | nil => intro acc; rfl
  | cons t ts ih =>
    intro acc
    simp only [List.foldl_cons, List.map_cons, List.flatten_cons, List.foldl_append]
    exact ih _

theorem finalColumns_eq (base : List String) (ts : List Table) :
    finalColumns base ts = base ++ firstSeenNew base ((ts.map Table.headers).flatten) := by
  unfold finalColumns
  rw [computeExtras_eq_firstSeenNew]
  congr 1
  rw [List.filter_eq_self]
  intro c hc
  simpa using notMem_of_mem_firstSeenNew base ((ts.map Table.headers).flatten) c hc

theorem merge_out_eq (t0 : Table) (rest : List Table) (out : Table)
    (hout : merge_files (t0 :: rest) = Except.ok out) :
    out = Table.fillnaEmpty
      { headers := finalColumns t0.headers (t0 :: rest),
        rows := (((t0 :: rest).map
          (fun t => t.reindex (finalColumns t0.headers (t0 :: rest)))).map Table.rows).flatten } := by
  simp only [merge_files, Except.ok.injEq] at hout
  exact hout.symm

theorem merge_rows_decomp (t0 : Table) (rest : List Table) (out : Table)
    (hout : merge_files (t0 :: rest) = Except.ok out) :
    out.rows = ((t0 :: rest).map
      (fun t => ((t.reindex (finalColumns t0.headers (t0 :: rest))).fillnaEmpty).rows)).flatten := by
  rw [merge_out_eq t0 rest out hout]
  simp [Table.fillnaEmpty, Table.reindex, List.map_flatten, List.map_map, Function.comp_def]

/-- C1: for a non-empty upload list, the merged output's header list is the
first table's headers followed by the headers of the scanned tables that are
not among the first table's headers, in first-encountered order. -/
theorem merge_header_order (t0 : Table) (rest : List Table) :
    (merge_files (t0 :: rest)).map Table.headers =
      Except.ok (t0.headers ++
        firstSeenNew t0.headers (((t0 :: rest).map Table.headers).flatten)) := by
  simp [merge_files, Table.fillnaEmpty, Except.map, finalColumns_eq]

/-- C2: the merged output has no null cell: every cell is a `some`, the
output decomposes into the per-table aligned-and-filled row blocks, in any
such block a position holding a column name absent from the source table
carries the empty string, and blank-filling turns every missing cell into
the empty string while preserving present values. -/
theorem merge_blank_fill (t0 : Table) (rest : List Table) (out : Table)
    (hout : merge_files (t0 :: rest) = Except.ok out) :
    (∀ r ∈ out.rows, ∀ x ∈ r, ∃ s, x = some s) ∧
    out.rows = ((t0 :: rest).map
      (fun t => ((t.reindex (finalColumns t0.headers (t0 :: rest))).fillnaEmpty).rows)).flatten ∧
    (∀ (t : Table) (cols : List String) (c : String), c ∉ t.headers →
      ∀ r ∈ ((t.reindex cols).fillnaEmpty).rows, ∀ i : Nat, cols.get? i = some c →
        r.get? i = some (some "")) ∧
    (∀ (u : Table) (i : Nat) (r : List (Option String)), u.rows.get? i = some r →
      ∀ (j : Nat) (x : Option String), r.get? j = some x →
        ∃ fr, u.fillnaEmpty.rows.get? i = some fr ∧ fr.get? j = some (some (x.getD ""))) := by
  refine ⟨?_, merge_rows_decomp t0 rest out hout, ?_, ?_⟩
  · rw [merge_out_eq t0 rest out hout]
    intro r hr x hx
    simp only [Table.fillnaEmpty, List.mem_map] at hr
    obtain ⟨r0, _, hr0⟩ := hr
    subst hr0
    simp only [List.mem_map] at hx
    obtain ⟨c0, _, hc0⟩ := hx
    exact ⟨c0.getD "", hc0.symm⟩
  · intro t cols c hc r hr i hi
    simp only [Table.fillnaEmpty, Table.reindex, List.map_map, List.mem_map,
      Function.comp_def] at hr
    obtain ⟨r0, hr0, hre⟩ := hr
    subst hre
    rw [List.get?_eq_getElem?, List.getElem?_map]
    rw [List.get?_eq_getElem?] at hi
    rw [hi]
    simp [hc]
  · intro u i r hr j x hx
    refine ⟨r.map (fun c => some (c.getD "")), ?_, ?_⟩
    · simp only [Table.fillnaEmpty]
      rw [List.get?_eq_getElem?, List.getElem?_map]
      rw [List.get?_eq_getElem?] at hr
      rw [hr]
      rfl
    · rw [List.get?_eq_getElem?, List.getElem?_map]
      rw [List.get?_eq_getElem?] at hx
      rw [hx]
      rfl

/-- C3: the merged output's row count is the sum of the input row counts,
and its rows are the per-table row blocks stacked in upload order. -/
theorem merge_row_count (t0 : Table) (rest : List Table) (out : Table)
    (hout : merge_files (t0 :: rest) = Except.ok out) :
    out.rows.length = ((t0 :: rest).map (fun t => t.rows.length)).sum ∧
    out.rows = ((t0 :: rest).map
      (fun t => ((t.reindex (finalColumns t0.headers (t0 :: rest))).fillnaEmpty).rows)).flatten := by
  refine ⟨?_, merge_rows_decomp t0 rest out hout⟩
  rw [merge_rows_decomp t0 rest out hout]
  simp [Table.fillnaEmpty, Table.reindex, List.length_flatten, List.map_map, Function.comp_def]

/-- C4: merging an empty upload list yields the "No files uploaded" error
with HTTP status 400, not an output table. -/
theorem merge_rejects_empty :
    merge_files [] = Except.error (400, "No files uploaded") := rfl

theorem merge_blank_fill_witness :
    merge_files [W1, W2] = Except.ok Wout ∧
    ((∀ r ∈ Wout.rows, ∀ x ∈ r, ∃ s, x = some s) ∧
     Wout.rows = ([W1, W2].map
       (fun t => ((t.reindex (finalColumns W1.headers [W1, W2])).fillnaEmpty).rows)).flatten ∧
     (∀ (t : Table) (cols : List String) (c : String), c ∉ t.headers →
       ∀ r ∈ ((t.reindex cols).fillnaEmpty).rows, ∀ i : Nat, cols.get? i = some c →
         r.get? i = some (some "")) ∧
     (∀ (u : Table) (i : Nat) (r : List (Option String)), u.rows.get? i = some r →
       ∀ (j : Nat) (x : Option String), r.get? j = some x →
         ∃ fr, u.fillnaEmpty.rows.get? i = some fr ∧ fr.get? j = some (some (x.getD "")))) :=
  ⟨rfl, merge_blank_fill W1 [W2] Wout rfl⟩

theorem merge_row_count_witness :
    merge_files [W1, W2] = Except.ok Wout ∧
    (Wout.rows.length = ([W1, W2].map (fun t => t.rows.length)).sum ∧
     Wout.rows = ([W1, W2].map
       (fun t => ((t.reindex (finalColumns W1.headers [W1, W2])).fillnaEmpty).rows)).flatten) :=
  ⟨rfl, merge_row_count W1 [W2] Wout rfl⟩

/-! ## Lemmas about the Header-Matching Generator -/

/-- C5: the generator's matched list has one entry per base header in base
order, equal to the base header exactly when it occurs verbatim among the
input headers and empty otherwise; the unmatched list holds exactly the
input headers outside the base headers, in input order. -/
theorem hm_matched_unmatched (base inputH : List String) :
    (matchedList base inputH).length = base.length ∧
    (∀ (i : Nat) (hi : i < base.length),
      (matchedList base inputH).get? i =
        some (if base.get ⟨i, hi⟩ ∈ inputH then base.get ⟨i, hi⟩ else "")) ∧
    (∀ c, c ∈ unmatchedList base inputH ↔ c ∈ inputH ∧ c ∉ base) ∧
    (unmatchedList base inputH).Sublist inputH := by
  refine ⟨by simp [matchedList], ?_, ?_, List.filter_sublist inputH⟩
  · intro i hi
    rw [matchedList, List.get?_eq_getElem?, List.getElem?_map]
    rw [List.getElem?_eq_getElem (by simpa using hi)]
    simp [List.get_eq_getElem]
  · intro c
    simp [unmatchedList]

theorem hm_matched_unmatched_witness :
    (0 < (["X", "Y", "Z"] : List String).length) ∧
    ((matchedList ["X", "Y", "Z"] ["Y", "Z", "W"]).length = 3 ∧
     (matchedList ["X", "Y", "Z"] ["Y", "Z", "W"]).get? 0 = some "" ∧
     (unmatchedList ["X", "Y", "Z"] ["Y", "Z", "W"] = ["W"])) := by
  have h := hm_matched_unmatched ["X", "Y", "Z"] ["Y", "Z", "W"]
  refine ⟨by decide, h.1, ?_, by decide⟩
  have h2 := h.2.1 0 (by decide)
  simpa using h2

theorem rows3_length (a : List String) :
    ∀ b c : List String, a.length = b.length → a.length = c.length →
      (rows3 a b c).length = a.length := by
  induction a with
  | nil => intro b c _ _; cases b <;> cases c <;> simp [rows3]
  | cons x xs ih =>
    intro b c hb hc
    cases b with
    | nil => simp at hb
    | cons y ys =>
      cases c with
      | nil => simp at hc
      | cons z zs =>
        simp only [rows3, List.length_cons]
        rw [ih ys zs (by simpa using hb) (by simpa using hc)]

theorem rows3_col0 (a : List String) :
    ∀ b c : List String, a.length = b.length → a.length = c.length →
      (rows3 a b c).map (fun r => r.getD 0 none) = a.map some := by
  induction a with
  | nil => intro b c _ _; cases b <;> cases c <;> simp [rows3]
  | cons x xs ih =>
    intro b c hb hc
    cases b with
    | nil => simp at hb
    | cons y ys =>
      cases c with
      | nil => simp at hc
      | cons z zs =>
        simp only [rows3, List.map_cons]
        rw [ih ys zs (by simpa using hb) (by simpa using hc)]
        simp [List.getD]

theorem rows3_col1 (a : List String) :
    ∀ b c : List String, a.length = b.length → a.length = c.length →
      (rows3 a b c).map (fun r => r.getD 1 none) = b.map some := by
  induction a with
  | nil =>
    intro b c hb _
    cases b with
    | nil => simp [rows3]
    | cons y ys => simp at hb
  | cons x xs ih =>
    intro b c hb hc
    cases b with
    | nil => simp at hb
    | cons y ys =>
      cases c with
      | nil => simp at hc
      | cons z zs =>
        simp only [rows3, List.map_cons]
        rw [ih ys zs (by simpa using hb) (by simpa using hc)]
        simp [List.getD]

theorem rows3_col2 (a : List String) :
    ∀ b c : List String, a.length = b.length → a.length = c.length →
      (rows3 a b c).map (fun r => r.getD 2 none) = c.map some := by
  induction a with
  | nil =>
    intro b c _ hc
    cases c with
    | nil => simp [rows3]
    | cons z zs => simp at hc
  | cons x xs ih =>
    intro b c hb hc
    cases b with
    | nil => simp at hb
    | cons y ys =>
      cases c with
      | nil => simp at hc
      | cons z zs =>
        simp only [rows3, List.map_cons]
        rw [ih ys zs (by simpa using hb) (by simpa using hc)]
        simp [List.getD]

theorem padded_length (l : List String) (n : Nat) (h : l.length ≤ n) :
    (l ++ List.replicate (n - l.length) "").length = n := by
  simp [Nat.add_sub_cancel' h]

/-- C6: the generator's output has exactly the three fixed columns, its row
count is the larger of the base-header count and the unmatched count, and
each of the three columns is its underlying list padded with empty strings
to that row count. -/
theorem hm_table_shape (inputT baseT : Table) :
    (generate_hm inputT baseT).headers =
      ["Base Header", "Matched Input Header", "Unmatched Input Headers"] ∧
    (generate_hm inputT baseT).rows.length =
      max baseT.headers.length (unmatchedList baseT.headers inputT.headers).length ∧
    (generate_hm inputT baseT).rows.map (fun r => r.getD 0 none) =
      (baseT.headers ++ List.replicate
        (max baseT.headers.length (unmatchedList baseT.headers inputT.headers).length
          - baseT.headers.length) "").map some ∧
    (generate_hm inputT baseT).rows.map (fun r => r.getD 1 none) =
      (matchedList baseT.headers inputT.headers ++ List.replicate
        (max baseT.headers.length (unmatchedList baseT.headers inputT.headers).length
          - (matchedList baseT.headers inputT.headers).length) "").map some ∧
    (generate_hm inputT baseT).rows.map (fun r => r.getD 2 none) =
      (unmatchedList baseT.headers inputT.headers ++ List.replicate
        (max baseT.headers.length (unmatchedList baseT.headers inputT.headers).length
          - (unmatchedList baseT.headers inputT.headers).length) "").map some := by
  have hml : (matchedList baseT.headers inputT.headers).length = baseT.headers.length := by
    simp [matchedList]
  have hb : baseT.headers.length ≤
      max baseT.headers.length (unmatchedList baseT.headers inputT.headers).length :=
    le_max_left _ _
  have hu : (unmatchedList baseT.headers inputT.headers).length ≤
      max baseT.headers.length (unmatchedList baseT.headers inputT.headers).length :=
    le_max_right _ _
  have hm2 : (matchedList baseT.headers inputT.headers).length ≤
      max baseT.headers.length (unmatchedList baseT.headers inputT.headers).length :=
    hml ▸ hb
  have lb := padded_length baseT.headers _ hb
  have lm := padded_length (matchedList baseT.headers inputT.headers) _ hm2
  have lu := padded_length (unmatchedList baseT.headers inputT.headers) _ hu
  refine ⟨rfl, ?_, ?_, ?_, ?_⟩
  · show (rows3 _ _ _).length = _
    rw [rows3_length _ _ _ (by rw [lb, lm]) (by rw [lb, lu]), lb]
  · exact rows3_col0 _ _ _ (by rw [lb, lm]) (by rw [lb, lu])
  · exact rows3_col1 _ _ _ (by rw [lb, lm]) (by rw [lb, lu])
  · exact rows3_col2 _ _ _ (by rw [lb, lm]) (by rw [lb, lu])

/-! ## Lemmas about the Transform Applier -/

theorem find?_map_upsert (k : String) (v : List (Option String)) :
    ∀ tdf : TDf, tdf.any (fun p => p.1 = k) = true →
      (tdf.map (fun p => if p.1 = k then (k, v) else p)).find? (fun p => p.1 = k) =
        some (k, v) := by
  intro tdf
  induction tdf with
  | nil => intro h; simp at h
  | cons a t ih =>
    intro h
    by_cases ha : a.1 = k
    · simp [ha]
    · simp only [List.any_cons, Bool.or_eq_true, decide_eq_true_eq] at h
      rcases h with h | h
      · exact absurd h ha
      · simp only [List.map_cons, if_neg ha]
        rw [List.find?_cons_of_neg _ (by simpa using ha)]
        exact ih h

theorem find?_upsert_self (tdf : TDf) (k : String) (v : List (Option String)) :
    (upsert tdf k v).find? (fun p => p.1 = k) = some (k, v) := by
  unfold upsert
  by_cases h : tdf.any (fun p => p.1 = k) = true
  · rw [if_pos h]
    exact find?_map_upsert k v tdf h
  · rw [if_neg h]
    rw [List.find?_append]
    have hnone : tdf.find? (fun p => p.1 = k) = none := by
      rw [List.find?_eq_none]
      intro x hx
      simp only [Bool.not_eq_true, decide_eq_false_iff_not]
      intro hxk
      exact h (List.any_eq_true.mpr ⟨x, hx, by simpa using hxk⟩)
    rw [hnone]
    simp

theorem find?_upsert_ne (tdf : TDf) (k b : String) (v : List (Option String))
    (hne : b ≠ k) :
    (upsert tdf k v).find? (fun p => p.1 = b) = tdf.find? (fun p => p.1 = b) := by
  unfold upsert
  by_cases h : tdf.any (fun p => p.1 = k) = true
  · rw [if_pos h]
    clear h
    induction tdf with
    | nil => rfl
    | cons a t ih =>
      by_cases ha : a.1 = k
      · have hab : a.1 ≠ b := by
          rw [ha]; exact fun hh => hne hh.symm
        simp only [List.map_cons, if_pos ha]
        rw [List.find?_cons_of_neg _ (by simpa using Ne.symm hne),
          List.find?_cons_of_neg _ (by simpa using hab)]
        exact ih
      · simp only [List.map_cons, if_neg ha]
        by_cases hab : a.1 = b
        · rw [List.find?_cons_of_pos _ (by simpa using hab),
            List.find?_cons_of_pos _ (by simpa using hab)]
        · rw [List.find?_cons_of_neg _ (by simpa using hab),
            List.find?_cons_of_neg _ (by simpa using hab)]
          exact ih
  · rw [if_neg h]
    rw [List.find?_append]
    have hsingle : ([(k, v)] : TDf).find? (fun p => p.1 = b) = none := by
      rw [List.find?_cons_of_neg _ (by simpa using Ne.symm hne)]
      rfl
    rw [hsingle]
    cases tdf.find? (fun p => p.1 = b) <;> rfl

theorem find?_hmStep_ne (inputT : Table) (hdrs : List String) (tdf : TDf)
    (r : List (Option String)) (b : String) (hne : trimBase hdrs r ≠ b) :
    (hmStep inputT hdrs tdf r).find? (fun p => p.1 = b) =
      tdf.find? (fun p => p.1 = b) := by
  unfold hmStep
  by_cases hskip : trimBase hdrs r = ""
  · rw [if_pos hskip]
  · rw [if_neg hskip]
    exact find?_upsert_ne tdf _ b _ (Ne.symm hne)

theorem find?_foldl_untouched (inputT : Table) (hdrs : List String) (b : String) :
    ∀ (l : List (List (Option String))) (tdf : TDf),
      (∀ r ∈ l, trimBase hdrs r ≠ b) →
      (l.foldl (hmStep inputT hdrs) tdf).find? (fun p => p.1 = b) =
        tdf.find? (fun p => p.1 = b) := by
  intro l
  induction l with
  | nil => intro tdf _; rfl
  | cons r t ih =>
    intro tdf hl
    rw [List.foldl_cons, ih _ (fun r2 h2 => hl r2 (List.mem_cons_of_mem r h2)),
      find?_hmStep_ne inputT hdrs tdf r b (hl r (List.mem_cons_self r t))]

theorem find?_applyHmRows_none (inputT hm : Table) (b : String)
    (h : ∀ r ∈ hm.rows, trimBase hm.headers r ≠ b) :
    (applyHmRows inputT hm).find? (fun p => p.1 = b) = none := by
  unfold applyHmRows
  rw [find?_foldl_untouched inputT hm.headers b hm.rows [] h]
  rfl

theorem find?_applyHmRows_last (inputT hm : Table)
    (pre post : List (List (Option String))) (r : List (Option String)) (b : String)
    (hsplit : hm.rows = pre ++ r :: post)
    (hb : trimBase hm.headers r = b) (hbne : b ≠ "")
    (hlast : ∀ r2 ∈ post, trimBase hm.headers r2 ≠ b) :
    (applyHmRows inputT hm).find? (fun p => p.1 = b) =
      some (b, dirValue inputT (trimMatched hm.headers r)) := by
  unfold applyHmRows
  rw [hsplit, List.foldl_append, List.foldl_cons]
  rw [find?_foldl_untouched inputT hm.headers b post _ hlast]
  unfold hmStep
  rw [hb, if_neg hbne]
  exact find?_upsert_self _ b _

theorem find?_ensureBase_preserve (b : String) (q : String × List (Option String)) :
    ∀ (bs : List String) (tdf : TDf),
      tdf.find? (fun p => p.1 = b) = some q →
      (ensureBase tdf bs).find? (fun p => p.1 = b) = some q := by
  intro bs
  induction bs with
  | nil => intro tdf h; exact h
  | cons c cs ih =>
    intro tdf h
    unfold ensureBase
    rw [List.foldl_cons]
    by_cases hg : tdf.any (fun p => p.1 = c) = true
    · rw [if_pos hg]
      exact ih tdf h
    · rw [if_neg hg]
      refine ih _ ?_
      rw [List.find?_append, h]
      rfl

theorem find?_append_single_ne (tdf : TDf) (b c : String) (v : List (Option String))
    (hne : c ≠ b) (h : tdf.find? (fun p => p.1 = b) = none) :
    (tdf ++ [(c, v)]).find? (fun p => p.1 = b) = none := by
  rw [List.find?_append, h]
  simp only [Option.none_or]
  rw [List.find?_cons_of_neg _ (by simpa using hne)]
  rfl

theorem find?_ensureBase_fills (b : String) :
    ∀ (bs : List String) (tdf : TDf),
      tdf.find? (fun p => p.1 = b) = none → b ∈ bs →
      ∃ kk, (ensureBase tdf bs).find? (fun p => p.1 = b) =
        some (b, List.replicate kk (some "")) := by
  intro bs
  induction bs with
  | nil => intro tdf _ hmem; exact absurd hmem (List.not_mem_nil b)
  | cons c cs ih =>
    intro tdf hnone hmem
    unfold ensureBase
    rw [List.foldl_cons]
    by_cases hcb : c = b
    · subst hcb
      have hg : ¬ tdf.any (fun p => p.1 = c) = true := by
        intro hg
        obtain ⟨x, hx, hxc⟩ := List.any_eq_true.mp hg
        have := List.find?_eq_none.mp hnone x hx
        exact this hxc
      rw [if_neg hg]
      refine ⟨indexLen tdf, ?_⟩
      refine find?_ensureBase_preserve c _ cs _ ?_
      rw [List.find?_append, hnone]
      simp only [Option.none_or]
      rw [List.find?_cons_of_pos _ (by simp)]
    · by_cases hg : tdf.any (fun p => p.1 = c) = true
      · rw [if_pos hg]
        exact ih tdf hnone ((List.mem_cons.mp hmem).resolve_left (fun hh => hcb hh.symm))
      · rw [if_neg hg]
        refine ih _ (find?_append_single_ne tdf b c _ hcb hnone)
          ((List.mem_cons.mp hmem).resolve_left (fun hh => hcb hh.symm))

theorem selectCols_map_fst (tdf : TDf) (bs : List String) :
    (selectCols tdf bs).map Prod.fst = bs := by
  simp [selectCols, List.map_map, Function.comp_def]

theorem selectCols_value (tdf : TDf) (bs : List String) (b : String)
    (v : List (Option String))
    (hfind : tdf.find? (fun p => p.1 = b) = some (b, v)) :
    ∀ p ∈ selectCols tdf bs, p.1 = b → p.2 = v := by
  intro p hp hpb
  simp only [selectCols, List.mem_map] at hp
  obtain ⟨c, _, hc⟩ := hp
  subst hc
  simp only at hpb
  subst hpb
  rw [hfind]
  rfl

/-- C7: the Transform Applier's output columns are exactly the base file's
headers in the base file's order; a base header never assigned by any hm row
holds an all-blank column; every output column name is a base header, so
assignments under other names are dropped. -/
theorem transform_shape (inputT baseT hm : Table) :
    (transform_file inputT baseT hm).map Prod.fst = baseT.headers ∧
    (∀ p ∈ transform_file inputT baseT hm, p.1 ∈ baseT.headers) ∧
    (∀ c ∈ baseT.headers,
      (∀ r ∈ hm.rows, trimBase hm.headers r ≠ c) →
      ∀ p ∈ transform_file inputT baseT hm, p.1 = c → ∀ x ∈ p.2, x = some "") := by
  refine ⟨selectCols_map_fst _ _, ?_, ?_⟩
  · intro p hp
    simp only [transform_file, selectCols, List.mem_map] at hp
    obtain ⟨c, hc, hce⟩ := hp
    subst hce
    exact hc
  · intro c hc hnever p hp hpc
    have hnone := find?_applyHmRows_none inputT hm c hnever
    obtain ⟨kk, hfill⟩ := find?_ensureBase_fills c baseT.headers (applyHmRows inputT hm) hnone hc
    have hval := selectCols_value _ baseT.headers c _ hfill p hp hpc
    rw [hval]
    intro x hx
    exact List.eq_of_mem_replicate hx

theorem transform_shape_witness :
    ("Extra" ∈ TBase.headers ∧ (∀ r ∈ THm.rows, trimBase THm.headers r ≠ "Extra")) ∧
    (∀ p ∈ transform_file TIn TBase THm, p.1 = "Extra" → ∀ x ∈ p.2, x = some "") :=
  ⟨⟨by decide, by decide⟩,
    (transform_shape TIn TBase THm).2.2 "Extra" (by decide) (by decide)⟩

theorem transform_last_value (inputT baseT hm : Table)
    (pre post : List (List (Option String))) (r : List (Option String)) (b : String)
    (hsplit : hm.rows = pre ++ r :: post)
    (hb : trimBase hm.headers r = b) (hbne : b ≠ "")
    (hlast : ∀ r2 ∈ post, trimBase hm.headers r2 ≠ b)
    (_hbmem : b ∈ baseT.headers) :
    ∀ p ∈ transform_file inputT baseT hm, p.1 = b →
      p.2 = dirValue inputT (trimMatched hm.headers r) := by
  have h1 := find?_applyHmRows_last inputT hm pre post r b hsplit hb hbne hlast
  have h2 := find?_ensureBase_preserve b _ baseT.headers _ h1
  exact selectCols_value _ _ b _ h2

/-- C8: an hm row whose trimmed matched cell is wrapped in double quotes and
does not name an input column, and whose base-header assignment is not
overwritten by a later row, yields a column that is the quote-stripped
constant repeated once per input row, so its length is the input row count
whatever the hm table's row count. -/
theorem transform_literal (inputT baseT hm : Table)
    (pre post : List (List (Option String))) (r : List (Option String)) (b m : String)
    (hsplit : hm.rows = pre ++ r :: post)
    (hb : trimBase hm.headers r = b) (hmm : trimMatched hm.headers r = m)
    (hbne : b ≠ "") (hbmem : b ∈ baseT.headers)
    (hnc : ¬ m ∈ inputT.headers)
    (hq : pyStartsWith m "\"" = true ∧ pyEndsWith m "\"" = true)
    (hlast : ∀ r2 ∈ post, trimBase hm.headers r2 ≠ b) :
    ∀ p ∈ transform_file inputT baseT hm, p.1 = b →
      p.2 = List.replicate inputT.rows.length (some (stripChar '"' m)) ∧
      p.2.length = inputT.rows.length := by
  intro p hp hpb
  have hv := transform_last_value inputT baseT hm pre post r b hsplit hb hbne hlast hbmem p hp hpb
  rw [hmm] at hv
  rw [hv]
  unfold dirValue
  rw [if_neg hnc, if_pos hq]
  exact ⟨rfl, by simp⟩

theorem transform_literal_witness :
    (trimBase THmQuote.headers [some "Name", some "\"Active\"", some ""] = "Name" ∧
     ¬ "\"Active\"" ∈ TIn.headers ∧
     pyStartsWith "\"Active\"" "\"" = true ∧ pyEndsWith "\"Active\"" "\"" = true) ∧
    (∀ p ∈ transform_file TIn TBase THmQuote, p.1 = "Name" →
      p.2 = List.replicate TIn.rows.length (some (stripChar '"' "\"Active\"")) ∧
      p.2.length = TIn.rows.length) :=
  ⟨⟨by decide, by decide, by decide, by decide⟩,
   transform_literal TIn TBase THmQuote [] [] [some "Name", some "\"Active\"", some ""]
     "Name" "\"Active\"" rfl (by decide) (by decide) (by decide) (by decide) (by decide)
     ⟨by decide, by decide⟩ (by intro r2 h2; exact absurd h2 (List.not_mem_nil r2))⟩

/-- C9: when two or more hm rows carry the same non-empty trimmed base
header, the output column for that base header is the directive of the last
such row in iteration order; earlier assignments are overwritten. -/
theorem transform_last_write_wins (inputT baseT hm : Table)
    (l1 l2 l3 : List (List (Option String)))
    (r1 r2 : List (Option String)) (b : String)
    (hsplit : hm.rows = l1 ++ r1 :: (l2 ++ r2 :: l3))
    (_hb1 : trimBase hm.headers r1 = b) (hb2 : trimBase hm.headers r2 = b)
    (hbne : b ≠ "") (hbmem : b ∈ baseT.headers)
    (hlast : ∀ r3 ∈ l3, trimBase hm.headers r3 ≠ b) :
    ∀ p ∈ transform_file inputT baseT hm, p.1 = b →
      p.2 = dirValue inputT (trimMatched hm.headers r2) := by
  refine transform_last_value inputT baseT hm (l1 ++ r1 :: l2) l3 r2 b ?_ hb2 hbne hlast hbmem
  rw [hsplit]
  simp

theorem transform_last_write_wins_witness :
    (trimBase THmDup.headers [some "Name", some "\"v1\"", some ""] = "Name" ∧
     trimBase THmDup.headers [some "Name", some "Y", some ""] = "Name") ∧
    (∀ p ∈ transform_file TIn TBase THmDup, p.1 = "Name" →
      p.2 = dirValue TIn (trimMatched THmDup.headers [some "Name", some "Y", some ""])) :=
  ⟨⟨by decide, by decide⟩,
   transform_last_write_wins TIn TBase THmDup [] [] []
     [some "Name", some "\"v1\"", some ""] [some "Name", some "Y", some ""] "Name"
     rfl (by decide) (by decide) (by decide) (by decide)
     (by intro r3 h3; exact absurd h3 (List.not_mem_nil r3))⟩

theorem dirValue_length (inputT : Table) (m : String) :
    (dirValue inputT m).length = inputT.rows.length := by
  unfold dirValue
  split_ifs <;> simp [Table.col]

theorem upsert_lengths (L : Nat) (tdf : TDf) (k : String) (v : List (Option String))
    (hall : ∀ p ∈ tdf, p.2.length = L) (hv : v.length = L) :
    ∀ p ∈ upsert tdf k v, p.2.length = L := by
  intro p hp
  unfold upsert at hp
  split_ifs at hp with hg
  · simp only [List.mem_map] at hp
    obtain ⟨a, ha, hae⟩ := hp
    by_cases hak : a.1 = k
    · rw [if_pos hak] at hae
      rw [← hae]
      exact hv
    · rw [if_neg hak] at hae
      rw [← hae]
      exact hall a ha
  · rcases List.mem_append.mp hp with h | h
    · exact hall p h
    · simp only [List.mem_singleton] at h
      rw [h]
      exact hv

theorem foldl_hmStep_lengths (inputT : Table) (hdrs : List String) :
    ∀ (l : List (List (Option String))) (tdf : TDf),
      (∀ p ∈ tdf, p.2.length = inputT.rows.length) →
      ∀ p ∈ l.foldl (hmStep inputT hdrs) tdf, p.2.length = inputT.rows.length := by
  intro l
  induction l with
  | nil => intro tdf h; exact h
  | cons r t ih =>
    intro tdf h
    rw [List.foldl_cons]
    refine ih _ ?_
    unfold hmStep
    split_ifs
    · exact h
    · exact upsert_lengths _ tdf _ _ h (dirValue_length inputT _)

theorem applyHmRows_lengths (inputT hm : Table) :
    ∀ p ∈ applyHmRows inputT hm, p.2.length = inputT.rows.length :=
  foldl_hmStep_lengths inputT hm.headers hm.rows [] (by simp)

theorem upsert_ne_nil (tdf : TDf) (k : String) (v : List (Option String)) :
    upsert tdf k v ≠ [] := by
  unfold upsert
  split_ifs with hg
  · cases tdf with
    | nil => simp at hg
    | cons a t => simp
  · simp

theorem foldl_hmStep_ne_nil (inputT : Table) (hdrs : List String) :
    ∀ (l : List (List (Option String))) (tdf : TDf),
      tdf ≠ [] → l.foldl (hmStep inputT hdrs) tdf ≠ [] := by
  intro l
  induction l with
  | nil => intro tdf h; exact h
  | cons r t ih =>
    intro tdf h
    rw [List.foldl_cons]
    refine ih _ ?_
    unfold hmStep
    split_ifs
    · exact h
    · exact upsert_ne_nil tdf _ _

theorem foldl_hmStep_ne_nil_of_mem (inputT : Table) (hdrs : List String) :
    ∀ (l : List (List (Option String))) (tdf : TDf),
      (∃ r ∈ l, trimBase hdrs r ≠ "") →
      l.foldl (hmStep inputT hdrs) tdf ≠ [] := by
  intro l
  induction l with
  | nil =>
    intro tdf h
    obtain ⟨r, hr, _⟩ := h
    exact absurd hr (List.not_mem_nil r)
  | cons x t ih =>
    intro tdf h
    rw [List.foldl_cons]
    obtain ⟨r, hr, hne⟩ := h
    rcases List.mem_cons.mp hr with heq | hmem
    · subst heq
      refine foldl_hmStep_ne_nil inputT hdrs t _ ?_
      unfold hmStep
      rw [if_neg hne]
      exact upsert_ne_nil tdf _ _
    · exact ih _ ⟨r, hmem, hne⟩

theorem applyHmRows_ne_nil (inputT hm : Table)
    (h : ∃ r ∈ hm.rows, trimBase hm.headers r ≠ "") :
    applyHmRows inputT hm ≠ [] :=
  foldl_hmStep_ne_nil_of_mem inputT hm.headers hm.rows [] h

theorem indexLen_eq (tdf : TDf) (L : Nat) (hne : tdf ≠ [])
    (hall : ∀ p ∈ tdf, p.2.length = L) : indexLen tdf = L := by
  cases tdf with
  | nil => exact absurd rfl hne
  | cons a t => exact hall a (List.mem_cons_self a t)

theorem ensureBase_inv (L : Nat) :
    ∀ (bs : List String) (tdf : TDf), tdf ≠ [] →
      (∀ p ∈ tdf, p.2.length = L) →
      ensureBase tdf bs ≠ [] ∧ ∀ p ∈ ensureBase tdf bs, p.2.length = L := by
  intro bs
  induction bs with
  | nil => intro tdf hne hall; exact ⟨hne, hall⟩
  | cons c cs ih =>
    intro tdf hne hall
    unfold ensureBase
    rw [List.foldl_cons]
    by_cases hg : tdf.any (fun p => p.1 = c) = true
    · rw [if_pos hg]
      exact ih tdf hne hall
    · rw [if_neg hg]
      refine ih _ (by simp) ?_
      intro p hp
      rcases List.mem_append.mp hp with h | h
      · exact hall p h
      · simp only [List.mem_singleton] at h
        rw [h]
        simp [indexLen_eq tdf L hne hall]

theorem find?_ensureBase_isSome (b : String) (bs : List String) (tdf : TDf)
    (hmem : b ∈ bs) :
    ∃ q, (ensureBase tdf bs).find? (fun p => p.1 = b) = some q := by
  cases hf : tdf.find? (fun p => p.1 = b) with
  | some q => exact ⟨q, find?_ensureBase_preserve b q bs tdf hf⟩
  | none =>
    obtain ⟨kk, h⟩ := find?_ensureBase_fills b bs tdf hf hmem
    exact ⟨_, h⟩

/-- C10 amended: whenever at least one hm row has a non-empty trimmed Base
Header, every column of the Transform Applier's output has length equal to
the input table's row count; when every hm row is skipped, the synthesized
blank columns are broadcast over an empty frame and have length 0 instead
(see the counterexample). -/
theorem transform_row_count_amended (inputT baseT hm : Table)
    (h : ∃ r ∈ hm.rows, trimBase hm.headers r ≠ "") :
    ∀ p ∈ transform_file inputT baseT hm, p.2.length = inputT.rows.length := by
  have hA := applyHmRows_lengths inputT hm
  have hne := applyHmRows_ne_nil inputT hm h
  have hEns := ensureBase_inv inputT.rows.length baseT.headers (applyHmRows inputT hm) hne hA
  intro p hp
  simp only [transform_file, selectCols, List.mem_map] at hp
  obtain ⟨c, hc, hce⟩ := hp
  obtain ⟨q, hq⟩ := find?_ensureBase_isSome c baseT.headers (applyHmRows inputT hm) hc
  have hqmem := List.mem_of_find?_eq_some hq
  have hqlen := hEns.2 q hqmem
  subst hce
  simp only [hq]
  exact hqlen

/-- C10 counterexample: with a one-row input table and an hm table whose
only row has a blank Base Header (so every hm row is skipped), every output
column has length 0 while the input has 1 row. -/
theorem transform_row_count_cex :
    (transform_file TIn TBase THmSkip).map (fun p => p.2.length) = [0, 0] ∧
    TIn.rows.length = 1 :=
  ⟨by decide, rfl⟩

theorem transform_row_count_witness :
    (∃ r ∈ THm.rows, trimBase THm.headers r ≠ "") ∧
    (∀ p ∈ transform_file TIn TBase THm, p.2.length = TIn.rows.length) :=
  ⟨⟨[some "Name", some "Y", some ""], by decide, by decide⟩,
   transform_row_count_amended TIn TBase THm
     ⟨[some "Name", some "Y", some ""], by decide, by decide⟩⟩
